import Mathlib

/- Verification of the geoip build pipeline (main.go): the binary trie decoder
   (parse), the country-range map and its override step (release), the trie
   encoder (newWriter / write), the CIDR source reader (fetchChinaIPCIDR) and
   the text format emitters (writeCIDRsToFile), as a shallow embedding. -/

set_option autoImplicit false

namespace Geoip

/-- Model of Go `*net.IPNet`. `isV4` models `IP.To4() != nil`; `bits` is the
sequence of leading address bits the network fixes, so an address (a longer
bit sequence) belongs to the network iff `bits` is a prefix of it; `repr`
is the canonical textual form produced by `String()`. -/
structure IPNet where
  isV4 : Bool
  bits : List Bool
  repr : String
deriving DecidableEq

/-- Lexicographic comparison of character lists by code point, modelling Go's
byte-wise string comparison (UTF-8 bytewise order agrees with code-point
order). -/
def charsLt : List Char → List Char → Bool
  | [], [] => false
  | [], _ :: _ => true
  | _ :: _, [] => false
  | a :: as, b :: bs => if a = b then charsLt as bs else decide (a.toNat < b.toNat)

/-- Model of Go's `s < t` on strings. -/
def strLt (s t : String) : Bool := charsLt s.data t.data

/-- Model of Go's `s <= t` on strings (total order, so `s <= t` iff `¬ t < s`). -/
def strLe (s t : String) : Bool := !(strLt t s)

/-- Model of Go's `strings.TrimSpace`: drop leading and trailing whitespace. -/
def strTrim (s : String) : String :=
  String.mk (((s.data.dropWhile Char.isWhitespace).reverse.dropWhile Char.isWhitespace).reverse)

/-- Model of Go's `strings.HasPrefix s p`. -/
def strStartsWith (s p : String) : Bool := p.data.isPrefixOf s.data

/-- Model of Go's `strings.ToLower`: character-wise lowercasing. -/
def strToLower (s : String) : String := String.mk (s.data.map Char.toLower)

/-- The insertion-order property claimed for the encoder: the sequence of
country codes, in insertion order, is ascending (every network of a
lexicographically smaller code comes before any network of a larger code). -/
def sortedAsc : List String → Bool
  | [] => true
  | [_] => true
  | a :: b :: rest => strLe a b && sortedAsc (b :: rest)

/-- Model of `maxminddb.Metadata`: the two fields the pipeline reads. -/
structure Metadata where
  ipVersion : Nat
  recordSize : Nat
deriving DecidableEq

/-- Abstraction of a successfully opened mmdb database (`maxminddb.FromBytes`
succeeded): its metadata, the sequence of results the network iterator yields
(`networks.Next` / `networks.Network`, aliased networks already skipped), and
the final `networks.Err()` value. -/
structure MMDBSource where
  metadata : Metadata
  walk : List (Except String (IPNet × String))
  finalErr : Option String

/-- Result triple of `parse` (its named return values). `metadata` and
`countryMap` are `none` when `maxminddb.FromBytes` fails, in which case Go
returns the zero metadata and a nil map. -/
structure ParseResult where
  metadata : Option Metadata
  countryMap : Option (List (String × List IPNet))
  err : Option String
deriving DecidableEq

/-- Model of `countryMap[code] = append(countryMap[code], ipNet)` on a map
represented as an association list with distinct keys. -/
def mapAppend (m : List (String × List IPNet)) (k : String) (v : IPNet) :
    List (String × List IPNet) :=
  match m with
  | [] => [(k, [v])]
  | (k', vs) :: rest =>
    if k' = k then (k', vs ++ [v]) :: rest else (k', vs) :: mapAppend rest k v

/-- The iterator loop of `parse`: process walk results in order, appending each
network under its lower-cased country code; a failing `networks.Network` call
stops the loop at once, keeping the map accumulated so far. -/
def parseLoop (walk : List (Except String (IPNet × String)))
    (acc : List (String × List IPNet)) :
    List (String × List IPNet) × Option String :=
  match walk with
  | [] => (acc, none)
  | Except.error e :: _ => (acc, some e)
  | Except.ok (n, iso) :: rest => parseLoop rest (mapAppend acc (strToLower iso) n)

/-- Model of `parse` (main.go:80): open the database, then walk all networks
grouping them by lower-cased registered-country code. On a mid-walk failure the
accumulated map is returned together with the error, exactly as the named
return values do in the source; after a complete walk the error is
`networks.Err()`. -/
def parse (db : Except String MMDBSource) : ParseResult :=
  match db with
  | Except.error e => ⟨none, none, some e⟩
  | Except.ok src =>
    match parseLoop src.walk [] with
    | (m, some e) => ⟨some src.metadata, some m, some e⟩
    | (m, none) => ⟨some src.metadata, some m, src.finalErr⟩

/-- Grouping of a list of (network, iso-code) pairs by lower-cased code,
starting from the empty map: the map `parse` has built after consuming exactly
these successful walk results. -/
def groupEntries (entries : List (IPNet × String)) : List (String × List IPNet) :=
  entries.foldl (fun m p => mapAppend m (strToLower p.2) p.1) []

/-- Model of `mmdbwriter.Options` as filled in by `newWriter`. -/
structure Options where
  databaseType : String
  languages : List String
  ipVersion : Nat
  recordSize : Nat
  disableIPv4Aliasing : Bool
  includeReservedNetworks : Bool
deriving DecidableEq

/-- Model of `newWriter` (main.go:102): builds the writer options from the
decoded metadata; the inserter is `inserter.ReplaceWith` (modelled by
`lookup` below). -/
def newWriter (metadata : Metadata) (codes : List String) : Options :=
  ⟨"geoip", codes, metadata.ipVersion, metadata.recordSize, true, true⟩

/-- Insertion step of insertion sort with `strLe`. -/
def insertStr (s : String) : List String → List String
  | [] => [s]
  | t :: ts => if strLe s t then s :: t :: ts else t :: insertStr s ts

/-- Model of `sort.Strings`: sorts ascending. -/
def sortStrings (l : List String) : List String := l.foldr insertStr []

/-- Model of the insertion phase of `write` (main.go:114): when `codes` is
empty it is replaced by the keys of `dataMap`; the codes are sorted and turned
into the membership set `codeMap`; then the code iterates `dataMap` — in Go's
map iteration order, modelled by the order of the association list — and
inserts every network of every retained code. The result is the sequence of
`writer.Insert` calls in order; the serialized output file is a deterministic
function of the trie state this sequence produces (see `lookup`). -/
def write (dataMap : List (String × List IPNet)) (codes : List String) :
    List (IPNet × String) :=
  let codes1 := if codes.isEmpty then dataMap.map Prod.fst else codes
  let codeMap := sortStrings codes1
  (dataMap.filter fun p => codeMap.contains p.1).flatMap fun p => p.2.map fun n => (n, p.1)

/-- Value an address looks up to after a sequence of `inserter.ReplaceWith`
insertions: the value of the last inserted network containing the address
(each insertion replaces the stored value on its whole range). -/
def lookup (inserts : List (IPNet × String)) (addr : List Bool) : Option String :=
  ((inserts.filter fun p => p.1.bits.isPrefixOf addr).map Prod.snd).getLast?

/-- One line-oriented remote source, as `fetchChinaIPCIDR` sees it: either the
HTTP GET fails, or it yields the lines the scanner produces plus the final
`scanner.Err()` value. -/
inductive Source where
  | unavailable (e : String)
  | available (lines : List String) (scanErr : Option String)

/-- A trimmed line is processed (not skipped) iff it is non-blank and does not
start with the comment marker. -/
def effLine (line : String) : Bool := line != "" && !(strStartsWith line "#")

/-- Body of the scanner loop of `fetchChinaIPCIDR` for one raw line: trim it,
skip blank and comment lines, parse the rest as a CIDR; a parse failure logs a
warning (second component) and skips the line. `p` models `net.ParseCIDR`. -/
def scanLine (p : String → Option IPNet) (acc : List IPNet × List String)
    (raw : String) : List IPNet × List String :=
  let line := strTrim raw
  if effLine line then
    match p line with
    | some n => (acc.1 ++ [n], acc.2)
    | none => (acc.1, acc.2 ++ [line])
  else acc

/-- Source loop of `fetchChinaIPCIDR`: a failed GET aborts with its error; each
available source's lines are scanned into the shared accumulator; a scanner
error aborts after the scan (the accumulated networks are discarded, as the Go
function returns nil). Warnings (logged bad lines) are the second component. -/
def fetchGo (p : String → Option IPNet) :
    List Source → List IPNet × List String → Except String (List IPNet) × List String
  | [], (acc, warns) => (Except.ok acc, warns)
  | Source.unavailable e :: _, (_, warns) => (Except.error e, warns)
  | Source.available lines scanErr :: rest, st =>
    let st1 := lines.foldl (scanLine p) st
    match scanErr with
    | some e => (Except.error e, st1.2)
    | none => fetchGo p rest st1

/-- Model of `fetchChinaIPCIDR` (main.go:146) over an arbitrary source list
(the source hard-codes two URLs; the loop is over the list), parameterized by
the external CIDR parser `p` (`net.ParseCIDR`). -/
def fetchChinaIPCIDR (p : String → Option IPNet) (sources : List Source) :
    Except String (List IPNet) × List String :=
  fetchGo p sources ([], [])

/-- The network one raw line contributes: its trimmed form's parse when the
line is processed, nothing otherwise. -/
def valFn (p : String → Option IPNet) (raw : String) : Option IPNet :=
  let t := strTrim raw
  if effLine t then p t else none

/-- The warning one raw line produces: its trimmed form when the line is
processed but fails to parse. -/
def badFn (p : String → Option IPNet) (raw : String) : Option String :=
  let t := strTrim raw
  if effLine t && (p t).isNone then some t else none

/-- The networks the scanner extracts from a line list: each processed line's
successful parse, in order. -/
def validNets (p : String → Option IPNet) (lines : List String) : List IPNet :=
  lines.filterMap (valFn p)

/-- The warned-about lines of a line list: each processed line whose parse
fails, in order. -/
def badLines (p : String → Option IPNet) (lines : List String) : List String :=
  lines.filterMap (badFn p)

/-- The chunks `writeCIDRsToFile` writes, one per `WriteString` call, by
format (main.go:194): unknown formats fall through the switch and write
nothing. -/
def emitChunks (cidrs : List IPNet) (format : String) : List String :=
  match format with
  | "txt" => cidrs.map fun c => c.repr ++ "\n"
  | "list" => cidrs.map fun c =>
      (if c.isV4 then "IP-CIDR," else "IP-CIDR6,") ++ c.repr ++ "\n"
  | "yaml" => "payload:\n" :: (cidrs.map fun c => "  - " ++ c.repr ++ "\n")
  | "snippet" => cidrs.map fun c =>
      (if c.isV4 then "ip-cidr, " else "ip6-cidr, ") ++ c.repr ++ "\n"
  | _ => []

/-- Result of `writeCIDRsToFile`: the file it creates, the chunks written to
it in order (the file's content is their concatenation), and the returned
error. The file-system effect of `os.Create` is modelled as succeeding; the
function body otherwise always returns nil. -/
structure EmitResult where
  fileName : String
  chunks : List String
  err : Option String
deriving DecidableEq

/-- Model of `writeCIDRsToFile` (main.go:182). -/
def writeCIDRsToFile (cidrs : List IPNet) (countryCode : String)
    (format : String) : EmitResult :=
  ⟨"geoip-" ++ countryCode ++ "." ++ format, emitChunks cidrs format, none⟩

/-- Model of the map assignment `countryMap[code] = chinaCIDRs`
(main.go:257): replace the value of `k` wholesale, or add the key if absent. -/
def mapSet (m : List (String × List IPNet)) (k : String) (v : List IPNet) :
    List (String × List IPNet) :=
  match m with
  | [] => [(k, v)]
  | (k', v') :: rest =>
    if k' = k then (k', v) :: rest else (k', v') :: mapSet rest k v

/-- Go map read `m[k]`: the value stored under `k`, if any. -/
def lookupCode (m : List (String × List IPNet)) (k : String) :
    Option (List IPNet) :=
  match m with
  | [] => none
  | (k', v') :: rest => if k' = k then some v' else lookupCode rest k

/-- The iso codes carried by the successful results of a walk. -/
def walkCodes : List (Except String (IPNet × String)) → List String
  | [] => []
  | Except.ok (_, iso) :: rest => iso :: walkCodes rest
  | Except.error _ :: rest => walkCodes rest

/-- Concrete IPv4 network 10.0.0.0/8. -/
def nUS : IPNet := ⟨true, [false], "10.0.0.0/8"⟩

/-- Concrete IPv4 network 1.0.0.0/8. -/
def nCN : IPNet := ⟨true, [true], "1.0.0.0/8"⟩

/-- Concrete IPv4 network 1.2.3.0/24. -/
def n1 : IPNet := ⟨true, [true, false], "1.2.3.0/24"⟩

/-- Concrete network covering the whole address space. -/
def netAll : IPNet := ⟨false, [], "::/0"⟩

/-- A country-range map whose Go-map iteration order presents "us" before
"cn". Go map iteration order is unspecified and randomized, so this order is
a possible run. -/
def dmUsCn : List (String × List IPNet) := [("us", [nUS]), ("cn", [nCN])]

/-- A map with two codes holding the same (overlapping) network, iterated
"aa" first. -/
def dmAB : List (String × List IPNet) := [("aa", [netAll]), ("bb", [netAll])]

/-- The same map as `dmAB`, iterated "bb" first: another possible iteration
order of the identical Go map. -/
def dmBA : List (String × List IPNet) := [("bb", [netAll]), ("aa", [netAll])]

/-- A database whose walk yields one network and then a read failure. -/
def srcMidFail : MMDBSource :=
  ⟨⟨6, 24⟩, [Except.ok (n1, "US"), Except.error "read failed"], none⟩

/-- A database whose single leaf has an empty registered-country code. -/
def srcEmptyCode : MMDBSource := ⟨⟨6, 24⟩, [Except.ok (n1, "")], none⟩

/-- A database with a single "US" leaf and a clean walk. -/
def srcSimple : MMDBSource := ⟨⟨6, 24⟩, [Except.ok (n1, "US")], none⟩

/-- A concrete CIDR parser recognizing exactly "1.2.3.0/24", used to
instantiate reader theorems. -/
def pW : String → Option IPNet := fun s => if s = "1.2.3.0/24" then some n1 else none

/-- Lower-casing a non-empty string yields a non-empty string. -/
theorem strToLower_ne_empty (s : String) (h : s ≠ "") : strToLower s ≠ "" := by
  intro hc
  cases s with
  | mk d =>
    cases d with
    | nil => exact h rfl
    | cons a as => exact absurd (congrArg String.data hc) (by simp [strToLower])

/-- The decoder returns the metadata of any successfully opened database. -/
theorem parse_ok_metadata (src : MMDBSource) :
    (parse (Except.ok src)).metadata = some src.metadata := by
  simp only [parse]
  rcases h : parseLoop src.walk [] with ⟨m, e⟩
  cases e <;> rfl

/-- The decoder returns the map accumulated by its iterator loop. -/
theorem parse_ok_countryMap (src : MMDBSource) :
    (parse (Except.ok src)).countryMap = some (parseLoop src.walk []).1 := by
  simp only [parse]
  rcases h : parseLoop src.walk [] with ⟨m, e⟩
  cases e <;> rfl

/-- C1: the claim asserts that `write` inserts all networks of a smaller code
before any network of a larger code. The code sorts `codes` but then iterates
the Go map `dataMap`, whose iteration order is unconstrained; in the run whose
iteration order presents "us" before "cn", the insertion sequence is
`(10.0.0.0/8, "us")` then `(1.0.0.0/8, "cn")`, whose code sequence is not
ascending. -/
theorem write_insertion_order_not_sorted :
    write dmUsCn [] = [(nUS, "us"), (nCN, "cn")] ∧
    sortedAsc ((write dmUsCn []).map Prod.snd) = false := by decide

/-- C2: the claim asserts byte-identical output across runs on the same map
and filter. `dmAB` and `dmBA` are the same Go map (a permutation) presented in
two iteration orders; under the ReplaceWith inserter the address `[]` resolves
to "bb" in one run and to "aa" in the other, so the serialized tries differ. -/
theorem write_output_depends_on_iteration_order :
    dmAB.Perm dmBA ∧
    lookup (write dmAB []) [] = some "bb" ∧
    lookup (write dmBA []) [] = some "aa" := by
  refine ⟨by decide, by decide, by decide⟩

/-- C4: the override step is total replacement with no effect on other keys:
after `mapSet m c R` (modelling `countryMap[c] = R`), code `c` maps to exactly
`R` and every other key maps to its value in `m`. -/
theorem override_total_replacement (m : List (String × List IPNet))
    (R : List IPNet) (c : String) :
    lookupCode (mapSet m c R) c = some R ∧
    ∀ k, k ≠ c → lookupCode (mapSet m c R) k = lookupCode m k := by
  constructor
  · induction m with
    | nil => simp [mapSet, lookupCode]
    | cons hd t ih =>
      obtain ⟨k', v'⟩ := hd
      by_cases hk : k' = c <;> simp [mapSet, lookupCode, hk, ih]
  · intro k hk
    induction m with
    | nil => simp [mapSet, lookupCode, Ne.symm hk]
    | cons hd t ih =>
      obtain ⟨k', v'⟩ := hd
      by_cases h1 : k' = c
      · subst h1
        simp [mapSet, lookupCode, Ne.symm hk]
      · by_cases h2 : k' = k <;> simp [mapSet, lookupCode, h1, h2, ih, hk]

/-- Witness for C4 at the concrete map `dmUsCn`, code "cn", replacement
`[n1]`, other key "us". -/
theorem override_total_replacement_witness :
    lookupCode (mapSet dmUsCn "cn" [n1]) "cn" = some [n1] ∧
    lookupCode (mapSet dmUsCn "cn" [n1]) "us" = lookupCode dmUsCn "us" :=
  ⟨(override_total_replacement dmUsCn [n1] "cn").1,
   (override_total_replacement dmUsCn [n1] "cn").2 "us" (by decide)⟩

/-- C8: build metadata is carried through unchanged: the decode step returns
the source's metadata, and `newWriter` fills the writer options with exactly
that metadata's IP version and record size. -/
theorem metadata_carried_through (src : MMDBSource) (codes : List String) :
    (parse (Except.ok src)).metadata = some src.metadata ∧
    (newWriter src.metadata codes).ipVersion = src.metadata.ipVersion ∧
    (newWriter src.metadata codes).recordSize = src.metadata.recordSize :=
  ⟨parse_ok_metadata src, rfl, rfl⟩

/-- The iterator loop on a walk made of successful results followed by a
failure folds the successful results into the map and stops at the failure,
returning its error. -/
theorem parseLoop_midwalk (good : List (IPNet × String)) (e : String)
    (rest : List (Except String (IPNet × String)))
    (acc : List (String × List IPNet)) :
    parseLoop (good.map Except.ok ++ Except.error e :: rest) acc
      = (good.foldl (fun m p => mapAppend m (strToLower p.2) p.1) acc, some e) := by
  induction good generalizing acc with
  | nil => simp [parseLoop]
  | cons g gs ih =>
    obtain ⟨n, iso⟩ := g
    simp [parseLoop, ih]

/-- C3 counterexample: on a database whose walk yields one "US" network and
then a read failure, `parse` returns the error together with the partially
populated (non-empty) map, so a caller does observe a partial map alongside
an error, contrary to the claim. -/
theorem parse_partial_map_with_error :
    (parse (Except.ok srcMidFail)).err = some "read failed" ∧
    (parse (Except.ok srcMidFail)).countryMap = some [("us", [n1])] ∧
    ([("us", [n1])] : List (String × List IPNet)) ≠ [] := by decide

/-- C3 amended: `parse` returns no map only when the byte stream is not a
valid trie (opening fails); on a mid-walk read failure it returns the error
together with the map accumulated from the successful results before the
failure. -/
theorem parse_error_behavior :
    (∀ e : String, (parse (Except.error e)).countryMap = none
      ∧ (parse (Except.error e)).err = some e) ∧
    (∀ (src : MMDBSource) (good : List (IPNet × String)) (e : String)
      (rest : List (Except String (IPNet × String))),
      src.walk = good.map Except.ok ++ Except.error e :: rest →
      (parse (Except.ok src)).countryMap = some (groupEntries good) ∧
      (parse (Except.ok src)).err = some e) := by
  refine ⟨fun e => ⟨rfl, rfl⟩, ?_⟩
  intro src good e rest hw
  have h : parseLoop src.walk [] = (groupEntries good, some e) := by
    rw [hw]
    exact parseLoop_midwalk good e rest []
  constructor <;> simp [parse, h]

/-- Witness for C3 amended at the concrete database `srcMidFail`. -/
theorem parse_error_behavior_witness :
    (parse (Except.ok srcMidFail)).countryMap = some (groupEntries [(n1, "US")]) ∧
    (parse (Except.ok srcMidFail)).err = some "read failed" :=
  parse_error_behavior.2 srcMidFail [(n1, "US")] "read failed" [] rfl

/-- Keys produced by `mapAppend` are either the appended key or keys already
present. -/
theorem mapAppend_keys (P : String → Prop) (m : List (String × List IPNet))
    (k : String) (v : IPNet) (hm : ∀ q ∈ m, P q.1) (hk : P k) :
    ∀ q ∈ mapAppend m k v, P q.1 := by
  induction m with
  | nil =>
    intro q hq
    simp [mapAppend] at hq
    simp [hq, hk]
  | cons hd t ih =>
    obtain ⟨k', vs⟩ := hd
    intro q hq
    by_cases h1 : k' = k
    · simp [mapAppend, h1] at hq
      rcases hq with hq | hq
      · simp [hq]
        exact hk
      · exact hm q (List.mem_cons_of_mem _ hq)
    · simp only [mapAppend, if_neg h1, List.mem_cons] at hq
      rcases hq with hq | hq
      · exact hq ▸ hm (k', vs) (List.mem_cons_self _ _)
      · exact ih (fun r hr => hm r (List.mem_cons_of_mem _ hr)) q hq

/-- Every key of the map built by the iterator loop satisfies any property
holding for the accumulator's keys and for the lower-cased walked codes. -/
theorem parseLoop_keys (P : String → Prop)
    (w : List (Except String (IPNet × String)))
    (acc : List (String × List IPNet))
    (hacc : ∀ q ∈ acc, P q.1)
    (hw : ∀ iso ∈ walkCodes w, P (strToLower iso)) :
    ∀ q ∈ (parseLoop w acc).1, P q.1 := by
  induction w generalizing acc with
  | nil => simpa [parseLoop] using hacc
  | cons x xs ih =>
    cases x with
    | error e => simpa [parseLoop] using hacc
    | ok v =>
      obtain ⟨n, iso⟩ := v
      simp only [parseLoop]
      apply ih
      · exact mapAppend_keys P acc (strToLower iso) n hacc
          (hw iso (by simp [walkCodes]))
      · intro i hi
        exact hw i (by simp [walkCodes, hi])

/-- C9 counterexample: a valid database whose single leaf carries an empty
registered-country code makes `parse` return a map keyed by the empty string,
with no error, contrary to the claim that no key is empty. -/
theorem parse_empty_string_key :
    (parse (Except.ok srcEmptyCode)).countryMap = some [("", [n1])] ∧
    (parse (Except.ok srcEmptyCode)).err = none := by decide

/-- C9 amended: every key of the map produced by `parse` is non-empty,
provided every walked leaf's country code is non-empty (the code lower-cases
the iso code but never skips an empty one, so the hypothesis is needed). -/
theorem parse_keys_nonempty (src : MMDBSource)
    (m : List (String × List IPNet))
    (hw : ∀ iso ∈ walkCodes src.walk, iso ≠ "")
    (hm : (parse (Except.ok src)).countryMap = some m) :
    ∀ q ∈ m, q.1 ≠ "" := by
  have hkeys : ∀ q ∈ (parseLoop src.walk []).1, q.1 ≠ "" := by
    apply parseLoop_keys (fun s => s ≠ "")
    · intro q hq
      simp at hq
    · intro iso hiso
      exact strToLower_ne_empty iso (hw iso hiso)
  have h2 := (parse_ok_countryMap src).symm.trans hm
  injection h2 with h3
  exact h3 ▸ hkeys

/-- Witness for C9 amended at the concrete database `srcSimple`. -/
theorem parse_keys_nonempty_witness : ("us", [n1]).1 ≠ "" :=
  parse_keys_nonempty srcSimple [("us", [n1])] (by decide) (by decide)
    ("us", [n1]) (by decide)

/-- The scanner loop on a line list appends exactly the valid networks to the
accumulator and the bad processed lines to the warnings. -/
theorem foldl_scanLine_eq (p : String → Option IPNet) (lines : List String)
    (acc : List IPNet) (warns : List String) :
    lines.foldl (scanLine p) (acc, warns)
      = (acc ++ validNets p lines, warns ++ badLines p lines) := by
  induction lines generalizing acc warns with
  | nil => simp [validNets, badLines]
  | cons l ls ih =>
    rw [List.foldl_cons]
    by_cases he : effLine (strTrim l) = true
    · rcases hp : p (strTrim l) with _ | n
      · have hs : scanLine p (acc, warns) l = (acc, warns ++ [strTrim l]) := by
          simp [scanLine, he, hp]
        rw [hs, ih]
        simp [validNets, badLines, valFn, badFn, List.filterMap_cons, he, hp]
      · have hs : scanLine p (acc, warns) l = (acc ++ [n], warns) := by
          simp [scanLine, he, hp]
        rw [hs, ih]
        simp [validNets, badLines, valFn, badFn, List.filterMap_cons, he, hp]
    · have hs : scanLine p (acc, warns) l = (acc, warns) := by
        simp [scanLine, he]
      rw [hs, ih]
      simp [validNets, badLines, valFn, badFn, List.filterMap_cons, he]

/-- The source loop over available, error-free sources accumulates each
source's valid networks and warnings in source order and succeeds. -/
theorem fetchGo_all_available (p : String → Option IPNet)
    (ls : List (List String)) (acc : List IPNet) (warns : List String) :
    fetchGo p (ls.map fun l => Source.available l none) (acc, warns)
      = (Except.ok (acc ++ (ls.map (validNets p)).flatten),
         warns ++ (ls.map (badLines p)).flatten) := by
  induction ls generalizing acc warns with
  | nil => simp [fetchGo]
  | cons l t ih =>
    simp only [List.map_cons, fetchGo, foldl_scanLine_eq]
    rw [ih]
    simp

/-- C6: the reader concatenates sources in source order with no cross-source
deduplication: over any list of available, error-free sources the output is
the per-source valid networks joined in order, and the multiplicity of any
network in the output is the sum of its per-source multiplicities. -/
theorem sources_concatenated_in_order (p : String → Option IPNet)
    (ls : List (List String)) :
    fetchChinaIPCIDR p (ls.map fun l => Source.available l none)
      = (Except.ok (ls.map (validNets p)).flatten,
         (ls.map (badLines p)).flatten) ∧
    ∀ x : IPNet, ((ls.map (validNets p)).flatten).count x
      = (ls.map fun l => (validNets p l).count x).sum := by
  constructor
  · simpa [fetchChinaIPCIDR] using fetchGo_all_available p ls [] []
  · intro x
    induction ls with
    | nil => simp
    | cons l t ih => simp [List.count_append, ih]

/-- A line list whose processed lines all parse produces no warnings. -/
theorem badLines_eq_nil (p : String → Option IPNet) (L : List String)
    (hL : ∀ l ∈ L, effLine (strTrim l) = true → (p (strTrim l)).isSome = true) :
    badLines p L = [] := by
  rw [badLines, List.filterMap_eq_nil_iff]
  intro l hl
  by_cases he : effLine (strTrim l) = true
  · obtain ⟨n, hn⟩ := Option.isSome_iff_exists.mp (hL l hl he)
    simp [badFn, he, hn]
  · simp only [Bool.not_eq_true] at he
    simp [badFn, he]

/-- C5: the reader tolerates a single malformed line: for a source whose other
processed lines all parse, it returns exactly the valid networks in order,
records the one bad line as the only warning, and does not return an error. -/
theorem malformed_line_tolerated (p : String → Option IPNet)
    (L1 L2 : List String) (bad : String)
    (hEff : effLine (strTrim bad) = true)
    (hParse : p (strTrim bad) = none)
    (hGood : ∀ l ∈ L1 ++ L2,
      effLine (strTrim l) = true → (p (strTrim l)).isSome = true) :
    fetchChinaIPCIDR p [Source.available (L1 ++ bad :: L2) none]
      = (Except.ok (validNets p L1 ++ validNets p L2), [strTrim bad]) ∧
    validNets p (L1 ++ bad :: L2) = validNets p L1 ++ validNets p L2 := by
  have hv : validNets p (L1 ++ bad :: L2) = validNets p L1 ++ validNets p L2 := by
    simp [validNets, List.filterMap_append, List.filterMap_cons, valFn, hEff, hParse]
  have hb1 : badLines p L1 = [] :=
    badLines_eq_nil p L1 fun l hl => hGood l (List.mem_append_left _ hl)
  have hb2 : badLines p L2 = [] :=
    badLines_eq_nil p L2 fun l hl => hGood l (List.mem_append_right _ hl)
  have hb : badLines p (L1 ++ bad :: L2) = [strTrim bad] := by
    simp only [badLines] at hb1 hb2
    simp [badLines, List.filterMap_append, List.filterMap_cons, badFn, hEff, hParse,
      hb1, hb2]
  constructor
  · have h := fetchGo_all_available p [L1 ++ bad :: L2] [] []
    simpa [fetchChinaIPCIDR, hv, hb] using h
  · exact hv

/-- Witness for C5: a five-line source with three effective lines, one of
which is malformed, yields the two valid networks and one warning. -/
theorem malformed_line_tolerated_witness :
    fetchChinaIPCIDR pW
      [Source.available
        (["1.2.3.0/24", "# comment", ""] ++ "bogus line" :: ["1.2.3.0/24"]) none]
      = (Except.ok [n1, n1], ["bogus line"]) := by
  have h := malformed_line_tolerated pW ["1.2.3.0/24", "# comment", ""]
    ["1.2.3.0/24"] "bogus line" (by decide) (by decide) (by decide)
  exact h.1.trans (by rfl)

/-- C7: each text emitter is a pure order-preserving projection with the
exact line syntax per format: one chunk per network in the order received
(`txt` the bare cidr, `list` prefixed `IP-CIDR,` or `IP-CIDR6,` by family,
`yaml` the `payload:` header then indented entries, `snippet` prefixed
`ip-cidr, ` or `ip6-cidr, `); emission distributes over concatenation (no
filtering or sorting), an empty sequence yields a header-only or empty
artifact, and no error is returned. -/
theorem emitters_line_syntax (cidrs xs ys : List IPNet) (code : String) :
    (writeCIDRsToFile cidrs code "txt").chunks
      = cidrs.map (fun c => c.repr ++ "\n") ∧
    (writeCIDRsToFile cidrs code "list").chunks
      = cidrs.map (fun c =>
          (if c.isV4 then "IP-CIDR," else "IP-CIDR6,") ++ c.repr ++ "\n") ∧
    (writeCIDRsToFile cidrs code "yaml").chunks
      = "payload:\n" :: cidrs.map (fun c => "  - " ++ c.repr ++ "\n") ∧
    (writeCIDRsToFile cidrs code "snippet").chunks
      = cidrs.map (fun c =>
          (if c.isV4 then "ip-cidr, " else "ip6-cidr, ") ++ c.repr ++ "\n") ∧
    (writeCIDRsToFile (xs ++ ys) code "txt").chunks
      = (writeCIDRsToFile xs code "txt").chunks
        ++ (writeCIDRsToFile ys code "txt").chunks ∧
    (writeCIDRsToFile [] code "yaml").chunks = ["payload:\n"] ∧
    (writeCIDRsToFile [] code "txt").chunks = [] ∧
    (writeCIDRsToFile [] code "list").chunks = [] ∧
    (writeCIDRsToFile [] code "snippet").chunks = [] ∧
    (∀ fmt : String, (writeCIDRsToFile cidrs code fmt).err = none) := by
  refine ⟨rfl, rfl, rfl, rfl, ?_, rfl, rfl, rfl, rfl, fun _ => rfl⟩
  show List.map _ (xs ++ ys) = List.map _ xs ++ List.map _ ys
  exact List.map_append _ xs ys

/-- Any format outside the four switch cases produces no chunks. -/
theorem emitChunks_unknown (cidrs : List IPNet) (fmt : String)
    (h : fmt ∉ (["txt", "list", "yaml", "snippet"] : List String)) :
    emitChunks cidrs fmt = [] := by
  simp only [List.mem_cons, List.mem_singleton, not_or] at h
  unfold emitChunks
  split <;> simp_all

/-- C10: for a format string outside {txt, list, yaml, snippet} the emitter
still produces its target file (named `geoip-<code>.<fmt>`), writes nothing to
it, and returns success rather than rejecting the unknown format. -/
theorem unknown_format_writes_nothing (cidrs : List IPNet) (code fmt : String)
    (h : fmt ∉ (["txt", "list", "yaml", "snippet"] : List String)) :
    (writeCIDRsToFile cidrs code fmt).fileName = "geoip-" ++ code ++ "." ++ fmt ∧
    (writeCIDRsToFile cidrs code fmt).chunks = [] ∧
    (writeCIDRsToFile cidrs code fmt).err = none :=
  ⟨rfl, emitChunks_unknown cidrs fmt h, rfl⟩

/-- Witness for C10 at the unknown format "bogus". -/
theorem unknown_format_writes_nothing_witness :
    (writeCIDRsToFile [n1] "cn" "bogus").fileName = "geoip-cn.bogus" ∧
    (writeCIDRsToFile [n1] "cn" "bogus").chunks = [] ∧
    (writeCIDRsToFile [n1] "cn" "bogus").err = none := by
  have h := unknown_format_writes_nothing [n1] "cn" "bogus" (by decide)
  exact ⟨h.1.trans (by rfl), h.2.1, h.2.2⟩

end Geoip
